import Mathlib

/-
Shallow embedding of slowpoke's event loop (src/loop.cc).

The program is a reaction-game TCP server.  Its state is one `GlobalState`
(score counters, reset-timer handle, live-socket set) plus one `Socket`
record per connection (deadline `next_`, output buffer).  Time is modelled
as `timeval`-style (seconds, microseconds) pairs of naturals; the random
draws and the results of `gettimeofday` are passed in as explicit oracle
parameters.  Lines written to stdout are collected in `GlobalState.output`;
lines written to a connection's bufferevent output buffer are collected in
`Socket.out`.  Loops in the C++ source (the usec carry loop and the
close-all loop) are embedded with explicit fuel so that every definition
is structurally recursive and kernel-evaluable; dedicated lemmas prove the
fuel is always sufficient.
-/

namespace Slowpoke

/-- Model of `struct timeval`: seconds and microseconds, both non-negative. -/
structure Timeval where
  sec : Nat
  usec : Nat
deriving DecidableEq, Repr

/-- Total microseconds represented by a timeval. -/
def toMicros (t : Timeval) : Nat := 1000000 * t.sec + t.usec

/-- Fuel-indexed version of the carry loop in `Socket::UpdateTimeout`:
`while (next_.tv_usec >= 1000000) { next_.tv_usec -= 1000000; next_.tv_sec++; }`. -/
def carryAux : Nat → Nat × Nat → Nat × Nat
  | 0, p => p
  | fuel + 1, p =>
    if 1000000 ≤ p.2 then carryAux fuel (p.1 + 1, p.2 - 1000000) else p

/-- Normalize a (sec, usec) pair so that usec < 1000000, as the carry loop does.
The fuel `usec` is always sufficient (proved below). -/
def carryUsec (sec usec : Nat) : Timeval :=
  let p := carryAux usec (sec, usec)
  ⟨p.1, p.2⟩

/-- Deadline computation of `Socket::UpdateTimeout`: start from the current
time `now`, add the drawn microseconds with carry normalization, then add
the drawn seconds. -/
def updateDeadline (now : Timeval) (sec usec : Nat) : Timeval :=
  let c := carryUsec now.sec (now.usec + usec)
  ⟨c.sec + sec, c.usec⟩

/-- Fuel-indexed most-significant-first decimal digit list of a natural,
modelling how printf \x25d renders a non-negative int. -/
def decAux : Nat → Nat → List Char
  | 0, n => [Nat.digitChar (n % 10)]
  | fuel + 1, n =>
    if n < 10 then [Nat.digitChar n] else decAux fuel (n / 10) ++ [Nat.digitChar (n % 10)]

/-- Decimal digits of a natural, most significant first. -/
def decimalDigits (n : Nat) : List Char := decAux n n

/-- Decimal rendering of a natural number (printf \x25d for non-negative ints). -/
def natToDec (n : Nat) : String := String.mk (decimalDigits n)

/-- Decimal rendering of a natural zero-padded to (at least) width 6,
modelling printf \x2506d for non-negative ints. -/
def pad6 (n : Nat) : String :=
  String.mk (List.replicate (6 - (decimalDigits n).length) '0' ++ decimalDigits n)

/-- The per-connection status line written by `Socket::UpdateTimeout`:
`evbuffer_add_printf(..., "%d.%06d %d %d\n", sec, usec, score, max_score)`. -/
def statusLine (sec usec score maxScore : Nat) : String :=
  natToDec sec ++ "." ++ pad6 usec ++ " " ++ natToDec score ++ " " ++ natToDec maxScore ++ "\n"

/-- The stdout line written by `GlobalState::ResetAndPrintScore`:
`std::cout << score << " / " << max_score << std::endl`. -/
def resultLine (score maxScore : Nat) : String :=
  natToDec score ++ " / " ++ natToDec maxScore ++ "\n"

/-- Model of class `Socket`: identity (the accepted fd stands in for the
object identity), the deadline `next_`, and the lines written to this
connection's output buffer. -/
structure Socket where
  id : Nat
  next : Timeval
  out : List String
deriving DecidableEq, Repr

/-- Model of `struct GlobalState` plus the process stdout (`output`).
`reset_timer` holds the absolute expiry time of the armed one-shot timer,
or `none` when no timer is armed (the null pointer). -/
structure GlobalState where
  max_seconds : Nat
  max_before_reset : Nat
  score : Nat
  max_score : Nat
  reset_timer : Option Timeval
  sockets : List Socket
  output : List String
deriving DecidableEq, Repr

/-- Model of `GlobalState::IncreaseScore`:
`score++; max_score = std::max(score, max_score);`. -/
def GlobalState.IncreaseScore (g : GlobalState) : GlobalState :=
  { g with score := g.score + 1, max_score := max (g.score + 1) g.max_score }

/-- Model of `GlobalState::ResetAndPrintScore`: print the result line, then
zero the score.  `max_score` is untouched. -/
def GlobalState.ResetAndPrintScore (g : GlobalState) : GlobalState :=
  { g with output := g.output ++ [resultLine g.score g.max_score], score := 0 }

/-- Model of the `Socket` destructor's effect on shared state:
`state_->sockets.erase(this)` (the bufferevent is freed, which the model
drops together with the destroyed socket record). -/
def eraseSocket (g : GlobalState) (s : Socket) : GlobalState :=
  { g with sockets := g.sockets.filter (fun t => t.id != s.id) }

/-- Model of `Socket::UpdateTimeout`: `gettimeofday` result `now` and the
two uniform draws `sec`, `usec` are oracle inputs; the new deadline is
stored and one status line is appended to this socket's output buffer,
carrying the state's current `score` and `max_score`. -/
def Socket.UpdateTimeout (s : Socket) (g : GlobalState) (now : Timeval) (sec usec : Nat) :
    Socket :=
  { s with
    next := updateDeadline now sec usec,
    out := s.out ++ [statusLine sec usec g.score g.max_score] }

/-- Model of `Socket::IsReady`: compare the current time against the stored
deadline, seconds first, then microseconds on a seconds tie. -/
def IsReady (now deadline : Timeval) : Bool :=
  if now.sec = deadline.sec then decide (deadline.usec ≤ now.usec)
  else decide (deadline.sec < now.sec)

/-- Apply `f` to the socket with identity `sid` inside the tracked set,
modelling in-place mutation of the object the callback context points at. -/
def updateSocket (g : GlobalState) (sid : Nat) (f : Socket → Socket) : GlobalState :=
  { g with sockets := g.sockets.map (fun t => if t.id = sid then f t else t) }

/-- Fuel-indexed version of the loop in `CloseAllSockets`:
`while (!state->sockets.empty()) { auto it = state->sockets.begin(); delete *it; }`.
Each `delete` runs the destructor, which erases that socket from the set. -/
def closeLoopAux : Nat → GlobalState → GlobalState
  | 0, g => g
  | fuel + 1, g =>
    match g.sockets with
    | [] => g
    | s :: _ => closeLoopAux fuel (eraseSocket g s)

/-- The destruction loop of `CloseAllSockets`, with fuel equal to the
initial number of sockets (always sufficient, proved below). -/
def closeLoop (g : GlobalState) : GlobalState := closeLoopAux g.sockets.length g

/-- Fuel-indexed trace of socket identities in destruction order, ghost
instrumentation of the same loop. -/
def closeTraceAux : Nat → GlobalState → List Nat
  | 0, _ => []
  | fuel + 1, g =>
    match g.sockets with
    | [] => []
    | s :: _ => s.id :: closeTraceAux fuel (eraseSocket g s)

/-- Identities of the sockets destroyed by the close-all loop, in order. -/
def closeTrace (g : GlobalState) : List Nat := closeTraceAux g.sockets.length g

/-- Model of `CloseAllSockets`: destroy every tracked socket, print and
zero the score, then free and null the reset timer. -/
def CloseAllSockets (g : GlobalState) : GlobalState :=
  let g1 := (closeLoop g).ResetAndPrintScore
  { g1 with reset_timer := none }

/-- Model of the timer callback `Reset`: it just calls `CloseAllSockets`
on the global state. -/
def Reset (g : GlobalState) : GlobalState := CloseAllSockets g

/-- Model of the read callback `OnRead` (non-DEBUG build): `bytesRead` is
the result of `bufferevent_read`; `assert(bytes_read > 0)` is modelled by
returning `none` (aborted process) on a zero-byte read.  Otherwise, if the
deadline has passed this is a tick (increase the score, then redraw the
deadline and emit a status line on this socket, reading the post-increment
counters); if not, it is a violation and `CloseAllSockets` runs.  `now` is
the `gettimeofday` result inside `IsReady`, `tUpd` the one inside
`UpdateTimeout`, and `sec`, `usec` the uniform draws. -/
def OnRead (g : GlobalState) (s : Socket) (now tUpd : Timeval) (bytesRead sec usec : Nat) :
    Option GlobalState :=
  if bytesRead = 0 then none
  else if IsReady now s.next then
    some (updateSocket g.IncreaseScore s.id
      (fun t => t.UpdateTimeout g.IncreaseScore tUpd sec usec))
  else some (CloseAllSockets g)

/-- Model of the event callback `OnEvent`: on `BEV_EVENT_ERROR` or
`BEV_EVENT_EOF` (a graceful peer close, i.e. a zero-byte read at the
transport level, sets EOF) the socket is deleted; other events are
ignored. -/
def OnEvent (g : GlobalState) (s : Socket) (eof err : Bool) : GlobalState :=
  if eof || err then eraseSocket g s else g

/-- Model of the accept callback `OnAccept`: if no reset timer is armed,
arm a one-shot timer expiring `max_before_reset` seconds from now; then
construct the new socket and run `Socket::Start` (initial `UpdateTimeout`,
then insertion into the tracked set). -/
def OnAccept (g : GlobalState) (fd : Nat) (now : Timeval) (sec usec : Nat) : GlobalState :=
  let g1 :=
    match g.reset_timer with
    | none => { g with reset_timer := some ⟨now.sec + g.max_before_reset, now.usec⟩ }
    | some _ => g
  let s1 := Socket.UpdateTimeout ⟨fd, ⟨0, 0⟩, []⟩ g1 now sec usec
  { g1 with sockets := g1.sockets ++ [s1] }

/-- Initial global state as built by `RunLoop`: configured bounds, zero
scores, no timer, no sockets, nothing printed. -/
def initState (max_s max_br : Nat) : GlobalState :=
  { max_seconds := max_s, max_before_reset := max_br, score := 0, max_score := 0,
    reset_timer := none, sockets := [], output := [] }

/-- Look up the tracked socket whose identity is `sid` (the callback
context pointer). -/
def findSocket (g : GlobalState) (sid : Nat) : Option Socket :=
  g.sockets.find? (fun s => s.id == sid)

/-- External events delivered by the libevent loop.  A graceful peer close
(zero bytes, no error) is delivered as `closed` with the EOF flag, never
as `readable`; `readable` carries the number of bytes drained by
`bufferevent_read`. -/
inductive Ev where
  | accept (fd : Nat) (now : Timeval) (sec usec : Nat)
  | readable (sid : Nat) (now tUpd : Timeval) (bytesRead sec usec : Nat)
  | closed (sid : Nat) (eof err : Bool)
  | timerFire

/-- One dispatch step of the event loop, instrumented with a ghost flag
recording whether a connection has been accepted since the last reset
(or since process start).  `none` means the event is not deliverable in
this state (no such socket, no armed timer) or the process aborted. -/
def stepH (p : GlobalState × Bool) (e : Ev) : Option (GlobalState × Bool) :=
  match e with
  | .accept fd now sec usec => some (OnAccept p.1 fd now sec usec, true)
  | .readable sid now tUpd bytesRead sec usec =>
    match findSocket p.1 sid with
    | none => none
    | some s =>
      match OnRead p.1 s now tUpd bytesRead sec usec with
      | none => none
      | some g2 => some (g2, if IsReady now s.next then p.2 else false)
  | .closed sid eof err =>
    match findSocket p.1 sid with
    | none => none
    | some s => some (OnEvent p.1 s eof err, p.2)
  | .timerFire =>
    match p.1.reset_timer with
    | none => none
    | some _ => some (CloseAllSockets p.1, false)

/-- States reachable from some initial configuration by event dispatch. -/
inductive ReachableH : GlobalState × Bool → Prop where
  | init : ∀ ms mbr, ReachableH (initState ms mbr, false)
  | step : ∀ p e p', ReachableH p → stepH p e = some p' → ReachableH p'

/-- Sample state with one tracked socket, used to instantiate theorems at
concrete inputs. -/
def sampleSocket : Socket := ⟨5, ⟨10, 5⟩, []⟩

/-- Sample global state containing `sampleSocket`. -/
def sampleState : GlobalState :=
  { initState 2 60 with sockets := [sampleSocket] }

/-- Sample global state with two tracked sockets with distinct identities. -/
def samplePair : GlobalState :=
  { initState 2 60 with
    sockets := [⟨5, ⟨10, 5⟩, []⟩, ⟨6, ⟨11, 0⟩, []⟩],
    score := 3, max_score := 4, reset_timer := some ⟨70, 0⟩ }

theorem carryAux_spec (fuel : Nat) :
    ∀ sec usec : Nat, usec ≤ fuel * 1000000 + 999999 →
      carryAux fuel (sec, usec) = (sec + usec / 1000000, usec % 1000000) := by
  induction fuel with
  | zero =>
    intro sec usec h
    simp only [carryAux, Prod.mk.injEq]
    omega
  | succ f ih =>
    intro sec usec h
    by_cases hc : 1000000 ≤ usec
    · simp only [carryAux, hc, if_pos]
      rw [ih (sec + 1) (usec - 1000000) (by omega)]
      simp only [Prod.mk.injEq]
      omega
    · simp only [carryAux]
      rw [if_neg hc]
      simp only [Prod.mk.injEq]
      omega

theorem carryUsec_eq (sec usec : Nat) :
    carryUsec sec usec = ⟨sec + usec / 1000000, usec % 1000000⟩ := by
  unfold carryUsec
  rw [carryAux_spec usec sec usec (by omega)]

theorem updateDeadline_micros (now : Timeval) (sec usec : Nat) :
    toMicros (updateDeadline now sec usec) = toMicros now + (1000000 * sec + usec) := by
  unfold updateDeadline toMicros
  rw [carryUsec_eq]
  simp only
  omega

theorem updateDeadline_usec_lt (now : Timeval) (sec usec : Nat) :
    (updateDeadline now sec usec).usec < 1000000 := by
  unfold updateDeadline
  rw [carryUsec_eq]
  simp only
  omega

theorem updateDeadline_self (t : Timeval) (h : t.usec < 1000000) :
    updateDeadline t 0 0 = t := by
  unfold updateDeadline
  rw [carryUsec_eq]
  obtain ⟨s, u⟩ := t
  simp only [Timeval.mk.injEq] at *
  omega

theorem isReady_iff (now deadline : Timeval)
    (h1 : now.usec < 1000000) (h2 : deadline.usec < 1000000) :
    IsReady now deadline = true ↔ toMicros deadline ≤ toMicros now := by
  unfold IsReady toMicros
  by_cases h : now.sec = deadline.sec <;> simp [h] <;> omega

theorem isReady_refl (t : Timeval) : IsReady t t = true := by
  simp [IsReady]

theorem eraseSocket_fields (g : GlobalState) (s : Socket) :
    (eraseSocket g s).score = g.score ∧ (eraseSocket g s).max_score = g.max_score ∧
    (eraseSocket g s).output = g.output ∧ (eraseSocket g s).reset_timer = g.reset_timer ∧
    (eraseSocket g s).max_seconds = g.max_seconds ∧
    (eraseSocket g s).max_before_reset = g.max_before_reset := by
  simp [eraseSocket]

theorem closeLoopAux_fields (fuel : Nat) :
    ∀ g : GlobalState,
      (closeLoopAux fuel g).score = g.score ∧
      (closeLoopAux fuel g).max_score = g.max_score ∧
      (closeLoopAux fuel g).output = g.output ∧
      (closeLoopAux fuel g).reset_timer = g.reset_timer ∧
      (closeLoopAux fuel g).max_seconds = g.max_seconds ∧
      (closeLoopAux fuel g).max_before_reset = g.max_before_reset := by
  induction fuel with
  | zero => intro g; simp [closeLoopAux]
  | succ f ih =>
    intro g
    cases hs : g.sockets with
    | nil => simp [closeLoopAux, hs]
    | cons s rest =>
      simp only [closeLoopAux, hs]
      exact (ih (eraseSocket g s))

theorem closeLoopAux_sockets (fuel : Nat) :
    ∀ g : GlobalState, g.sockets.length ≤ fuel → (closeLoopAux fuel g).sockets = [] := by
  induction fuel with
  | zero =>
    intro g h
    have hnil : g.sockets = [] := List.eq_nil_of_length_eq_zero (Nat.le_zero.mp h)
    simpa [closeLoopAux] using hnil
  | succ f ih =>
    intro g h
    cases hs : g.sockets with
    | nil => simpa [closeLoopAux, hs] using hs
    | cons s rest =>
      simp only [closeLoopAux, hs]
      apply ih
      have hlen : ((s :: rest).filter (fun t => t.id != s.id)).length ≤ rest.length := by
        rw [List.filter_cons]
        simp only [bne_self_eq_false, Bool.false_eq_true, if_false]
        exact List.length_filter_le _ _
      have : (eraseSocket g s).sockets = (s :: rest).filter (fun t => t.id != s.id) := by
        simp [eraseSocket, hs]
      rw [this]
      rw [hs] at h
      simp only [List.length_cons] at h
      omega

theorem closeLoop_sockets (g : GlobalState) : (closeLoop g).sockets = [] :=
  closeLoopAux_sockets g.sockets.length g le_rfl

theorem closeAll_fields (g : GlobalState) :
    (CloseAllSockets g).sockets = [] ∧
    (CloseAllSockets g).output = g.output ++ [resultLine g.score g.max_score] ∧
    (CloseAllSockets g).score = 0 ∧
    (CloseAllSockets g).reset_timer = none ∧
    (CloseAllSockets g).max_score = g.max_score := by
  obtain ⟨h1, h2, h3, h4, h5, h6⟩ := closeLoopAux_fields g.sockets.length g
  unfold CloseAllSockets GlobalState.ResetAndPrintScore closeLoop
  refine ⟨?_, ?_, rfl, rfl, ?_⟩
  · simpa using closeLoop_sockets g
  · simp [h1, h2, h3]
  · simpa using h2

theorem closeTraceAux_eq (fuel : Nat) :
    ∀ g : GlobalState, g.sockets.length ≤ fuel → (g.sockets.map Socket.id).Nodup →
      closeTraceAux fuel g = g.sockets.map Socket.id := by
  induction fuel with
  | zero =>
    intro g h _
    have hnil : g.sockets = [] := List.eq_nil_of_length_eq_zero (Nat.le_zero.mp h)
    simp [closeTraceAux, hnil]
  | succ f ih =>
    intro g h hn
    cases hs : g.sockets with
    | nil => simp [closeTraceAux, hs]
    | cons s rest =>
      have hmem : s.id ∉ rest.map Socket.id := by
        rw [hs] at hn
        simp only [List.map_cons, List.nodup_cons] at hn
        exact hn.1
      have herase : (eraseSocket g s).sockets = rest := by
        simp only [eraseSocket, hs]
        rw [List.filter_cons]
        simp only [bne_self_eq_false, Bool.false_eq_true, if_false]
        apply List.filter_eq_self.mpr
        intro t ht
        simp only [bne_iff_ne, ne_eq]
        intro hcontra
        exact hmem (hcontra ▸ List.mem_map_of_mem Socket.id ht)
      simp only [closeTraceAux, hs, List.map_cons]
      congr 1
      rw [ih (eraseSocket g s) (by rw [herase]; rw [hs] at h; simpa using Nat.le_of_succ_le_succ h)
        (by rw [herase]; rw [hs] at hn; simp only [List.map_cons, List.nodup_cons] at hn; exact hn.2)]
      rw [herase]

theorem increase_iter (g : GlobalState) :
    ∀ n : Nat,
      (GlobalState.IncreaseScore^[n] g).score = g.score + n ∧
      (GlobalState.IncreaseScore^[n] g).max_score =
        (if n = 0 then g.max_score else max g.max_score (g.score + n)) ∧
      (GlobalState.IncreaseScore^[n] g).output = g.output := by
  intro n
  induction n with
  | zero => simp
  | succ m ih =>
    obtain ⟨h1, h2, h3⟩ := ih
    rw [Function.iterate_succ_apply']
    refine ⟨?_, ?_, ?_⟩
    · simp only [GlobalState.IncreaseScore, h1]
      omega
    · simp only [GlobalState.IncreaseScore, h1, h2]
      by_cases hm : m = 0 <;> simp [hm] <;> omega
    · simp [GlobalState.IncreaseScore, h3]

theorem onAccept_timer_isSome (g : GlobalState) (fd : Nat) (now : Timeval) (sec usec : Nat) :
    (OnAccept g fd now sec usec).reset_timer ≠ none := by
  unfold OnAccept
  cases h : g.reset_timer <;> simp [h]

theorem onAccept_timer_preserved (g : GlobalState) (fd : Nat) (now : Timeval)
    (sec usec : Nat) (t : Timeval) (h : g.reset_timer = some t) :
    (OnAccept g fd now sec usec).reset_timer = some t := by
  unfold OnAccept
  simp [h]

theorem onAccept_sockets (g : GlobalState) (fd : Nat) (now : Timeval) (sec usec : Nat) :
    (OnAccept g fd now sec usec).sockets =
      g.sockets ++
        [⟨fd, updateDeadline now sec usec, [statusLine sec usec g.score g.max_score]⟩] := by
  unfold OnAccept
  cases h : g.reset_timer <;> simp [h, Socket.UpdateTimeout]

theorem onAccept_score (g : GlobalState) (fd : Nat) (now : Timeval) (sec usec : Nat) :
    (OnAccept g fd now sec usec).score = g.score ∧
    (OnAccept g fd now sec usec).max_score = g.max_score ∧
    (OnAccept g fd now sec usec).output = g.output := by
  unfold OnAccept
  cases h : g.reset_timer <;> simp [h]

theorem onRead_tick_eq (g : GlobalState) (s : Socket) (now tUpd : Timeval)
    (bytesRead sec usec : Nat) (hn : 0 < bytesRead) (hr : IsReady now s.next = true) :
    OnRead g s now tUpd bytesRead sec usec =
      some (updateSocket g.IncreaseScore s.id
        (fun t => t.UpdateTimeout g.IncreaseScore tUpd sec usec)) := by
  unfold OnRead
  simp [Nat.pos_iff_ne_zero.mp hn, hr]

theorem onRead_violation_eq (g : GlobalState) (s : Socket) (now tUpd : Timeval)
    (bytesRead sec usec : Nat) (hn : 0 < bytesRead) (hr : IsReady now s.next = false) :
    OnRead g s now tUpd bytesRead sec usec = some (CloseAllSockets g) := by
  unfold OnRead
  simp [Nat.pos_iff_ne_zero.mp hn, hr]

theorem updateSocket_fields (g : GlobalState) (sid : Nat) (f : Socket → Socket) :
    (updateSocket g sid f).score = g.score ∧
    (updateSocket g sid f).max_score = g.max_score ∧
    (updateSocket g sid f).output = g.output ∧
    (updateSocket g sid f).reset_timer = g.reset_timer := by
  simp [updateSocket]

theorem decAux_length (fuel : Nat) :
    ∀ n k : Nat, 1 ≤ k → n < 10 ^ k → (decAux fuel n).length ≤ k := by
  induction fuel with
  | zero => intro n k hk _; simpa [decAux] using hk
  | succ f ih =>
    intro n k hk hn
    by_cases h10 : n < 10
    · simpa [decAux, h10] using hk
    · have hk2 : 2 ≤ k := by
        by_contra hcon
        have : k = 1 := by omega
        subst this
        simp at hn
        omega
      simp only [decAux, h10, if_false, List.length_append, List.length_cons,
        List.length_nil]
      have hdiv : n / 10 < 10 ^ (k - 1) := by
        rw [Nat.div_lt_iff_lt_mul (by norm_num : 0 < 10)]
        have : 10 ^ (k - 1) * 10 = 10 ^ k := by
          rw [← pow_succ]
          congr 1
          omega
        omega
      have := ih (n / 10) (k - 1) (by omega) hdiv
      omega

theorem pad6_length (u : Nat) (h : u < 1000000) : (pad6 u).length = 6 := by
  have hlen : (decimalDigits u).length ≤ 6 := by
    apply decAux_length u u 6 (by norm_num)
    norm_num
    omega
  simp only [pad6, String.length]
  simp only [List.length_append, List.length_replicate]
  omega

/-- Claim C1: every invocation of the reset coordinator — whether from the
timer callback `Reset` or from a timing violation in `OnRead` — destroys
every tracked connection, writes exactly one result line carrying the
pre-reset score and the running maxScore, zeroes the score, and clears the
armed reset-timer handle (and leaves maxScore untouched). -/
theorem reset_coordinator_spec (g : GlobalState) :
    Reset g = CloseAllSockets g ∧
    (CloseAllSockets g).sockets = [] ∧
    (CloseAllSockets g).output = g.output ++ [resultLine g.score g.max_score] ∧
    (CloseAllSockets g).score = 0 ∧
    (CloseAllSockets g).reset_timer = none ∧
    (CloseAllSockets g).max_score = g.max_score ∧
    (∀ (s : Socket) (now tUpd : Timeval) (bytesRead sec usec : Nat),
      0 < bytesRead → IsReady now s.next = false →
      OnRead g s now tUpd bytesRead sec usec = some (CloseAllSockets g)) := by
  obtain ⟨h1, h2, h3, h4, h5⟩ := closeAll_fields g
  exact ⟨rfl, h1, h2, h3, h4, h5,
    fun s now tUpd n sec usec hn hr => onRead_violation_eq g s now tUpd n sec usec hn hr⟩

theorem reset_coordinator_witness :
    (CloseAllSockets sampleState).score = 0 ∧
    OnRead sampleState sampleSocket ⟨10, 4⟩ ⟨10, 4⟩ 1 0 0 =
      some (CloseAllSockets sampleState) := by
  refine ⟨(reset_coordinator_spec sampleState).2.2.2.1, ?_⟩
  exact (reset_coordinator_spec sampleState).2.2.2.2.2.2 sampleSocket ⟨10, 4⟩ ⟨10, 4⟩ 1 0 0
    (by decide) (by decide)

/-- Claim C3: a connection that reads strictly before its deadline triggers
the reset coordinator: every tracked connection (misbehaving or not) is
destroyed and the epoch rotates; the violation is handled as a game-rule
outcome (the callback returns normally, `some` state, never a fault). -/
theorem violation_reset_spec (g : GlobalState) (s : Socket) (now tUpd : Timeval)
    (bytesRead sec usec : Nat) (hn : 0 < bytesRead) (hr : IsReady now s.next = false) :
    OnRead g s now tUpd bytesRead sec usec = some (CloseAllSockets g) ∧
    (CloseAllSockets g).sockets = [] ∧
    (CloseAllSockets g).score = 0 ∧
    (CloseAllSockets g).output = g.output ++ [resultLine g.score g.max_score] ∧
    (OnRead g s now tUpd bytesRead sec usec).isSome = true := by
  obtain ⟨h1, h2, h3, h4, h5⟩ := closeAll_fields g
  have heq := onRead_violation_eq g s now tUpd bytesRead sec usec hn hr
  exact ⟨heq, h1, h3, h2, by rw [heq]; rfl⟩

theorem violation_reset_witness :
    OnRead samplePair ⟨5, ⟨10, 5⟩, []⟩ ⟨10, 4⟩ ⟨10, 4⟩ 2 0 0 =
      some (CloseAllSockets samplePair) ∧
    (CloseAllSockets samplePair).sockets = [] := by
  have h := violation_reset_spec samplePair ⟨5, ⟨10, 5⟩, []⟩ ⟨10, 4⟩ ⟨10, 4⟩ 2 0 0
    (by decide) (by decide)
  exact ⟨h.1, h.2.1⟩

/-- Claim C7: `IsReady` compares times at microsecond granularity: for
timevals with normalized microsecond fields it returns true exactly when
the current time is at or after the deadline, and in particular it returns
true when the two are equal. -/
theorem isReady_spec :
    (∀ now deadline : Timeval, now.usec < 1000000 → deadline.usec < 1000000 →
      (IsReady now deadline = true ↔ toMicros deadline ≤ toMicros now)) ∧
    (∀ t : Timeval, IsReady t t = true) :=
  ⟨fun now dl h1 h2 => isReady_iff now dl h1 h2, isReady_refl⟩

theorem isReady_witness :
    (IsReady ⟨5, 3⟩ ⟨4, 999999⟩ = true ↔ toMicros ⟨4, 999999⟩ ≤ toMicros ⟨5, 3⟩) ∧
    IsReady ⟨7, 7⟩ ⟨7, 7⟩ = true :=
  ⟨isReady_spec.1 ⟨5, 3⟩ ⟨4, 999999⟩ (by decide) (by decide), isReady_spec.2 ⟨7, 7⟩⟩

/-- Claim C9: a zero-byte delivery with no error flag is a graceful peer
close: it is dispatched to the error/close path (`OnEvent` with the EOF
flag), which tears the connection down with no effect on score, output or
timer; it is never evaluated as a tick or violation (`OnRead` requires a
positive byte count, enforced by its assertion). -/
theorem zero_byte_close_spec (g : GlobalState) (s : Socket) :
    OnEvent g s true false = eraseSocket g s ∧
    (OnEvent g s true false).score = g.score ∧
    (OnEvent g s true false).max_score = g.max_score ∧
    (OnEvent g s true false).output = g.output ∧
    (OnEvent g s true false).reset_timer = g.reset_timer ∧
    ((OnEvent g s true false).sockets.all (fun t => t.id != s.id)) = true ∧
    (∀ (now tUpd : Timeval) (sec usec : Nat), OnRead g s now tUpd 0 sec usec = none) := by
  refine ⟨rfl, ?_, ?_, ?_, ?_, ?_, fun now tUpd sec usec => rfl⟩
  · simp [OnEvent, eraseSocket]
  · simp [OnEvent, eraseSocket]
  · simp [OnEvent, eraseSocket]
  · simp [OnEvent, eraseSocket]
  · simp only [OnEvent, Bool.or_false, if_true, List.all_eq_true]
    intro t ht
    exact (List.mem_filter.mp ht).2

/-- Claim C10: the mass-teardown loop of the reset coordinator terminates
on any finite connection set, destroying each tracked connection exactly
once (the destruction trace lists each identity once, and each destructor
call strictly shrinks the set it is consuming), and no destructor
re-enters the coordinator (a destructor changes no score, output or timer
state). -/
theorem teardown_loop_spec (g : GlobalState) :
    ((g.sockets.map Socket.id).Nodup → closeTrace g = g.sockets.map Socket.id) ∧
    (closeLoop g).sockets = [] ∧
    (∀ (s : Socket) (rest : List Socket), g.sockets = s :: rest →
      (eraseSocket g s).sockets.length < g.sockets.length) ∧
    (∀ s : Socket,
      (eraseSocket g s).output = g.output ∧
      (eraseSocket g s).score = g.score ∧
      (eraseSocket g s).max_score = g.max_score ∧
      (eraseSocket g s).reset_timer = g.reset_timer) := by
  refine ⟨fun hn => closeTraceAux_eq g.sockets.length g le_rfl hn, closeLoop_sockets g, ?_, ?_⟩
  · intro s rest hs
    have hlen : ((s :: rest).filter (fun t => t.id != s.id)).length ≤ rest.length := by
      rw [List.filter_cons]
      simp only [bne_self_eq_false, Bool.false_eq_true, if_false]
      exact List.length_filter_le _ _
    simp only [eraseSocket, hs]
    simp only [List.length_cons]
    omega
  · intro s
    obtain ⟨h1, h2, h3, h4, _, _⟩ := eraseSocket_fields g s
    exact ⟨h3, h1, h2, h4⟩

theorem teardown_loop_witness :
    closeTrace samplePair = samplePair.sockets.map Socket.id ∧
    (closeLoop samplePair).sockets = [] ∧
    (eraseSocket samplePair ⟨5, ⟨10, 5⟩, []⟩).sockets.length <
      samplePair.sockets.length := by
  refine ⟨(teardown_loop_spec samplePair).1 (by decide),
    (teardown_loop_spec samplePair).2.1, ?_⟩
  exact (teardown_loop_spec samplePair).2.2.1 ⟨5, ⟨10, 5⟩, []⟩ [⟨6, ⟨11, 0⟩, []⟩] (by decide)

/-- Claim C2: a connection that reads at or after its deadline performs
exactly one successful tick: the score increases by exactly 1, the
deadline is redrawn as the current time plus `sec` seconds plus `usec`
microseconds (draws bounded by `sec < max_seconds` and `usec < 1000000`,
requiring `max_seconds ≥ 1`, with microsecond carry normalized into
seconds), exactly one new status line is emitted on that connection, and
no connection is destroyed and no reset occurs (stdout and the reset timer
are untouched, the tracked identities are unchanged). -/
theorem tick_spec (g : GlobalState) (s : Socket) (now tUpd : Timeval)
    (bytesRead sec usec : Nat) (hn : 0 < bytesRead) (hr : IsReady now s.next = true)
    (hms : 1 ≤ g.max_seconds) (hsec : sec < g.max_seconds) (husec : usec < 1000000) :
    OnRead g s now tUpd bytesRead sec usec =
      some (updateSocket g.IncreaseScore s.id
        (fun t => t.UpdateTimeout g.IncreaseScore tUpd sec usec)) ∧
    (updateSocket g.IncreaseScore s.id
      (fun t => t.UpdateTimeout g.IncreaseScore tUpd sec usec)).score = g.score + 1 ∧
    (updateSocket g.IncreaseScore s.id
      (fun t => t.UpdateTimeout g.IncreaseScore tUpd sec usec)).max_score =
        max (g.score + 1) g.max_score ∧
    (updateSocket g.IncreaseScore s.id
      (fun t => t.UpdateTimeout g.IncreaseScore tUpd sec usec)).output = g.output ∧
    (updateSocket g.IncreaseScore s.id
      (fun t => t.UpdateTimeout g.IncreaseScore tUpd sec usec)).reset_timer =
        g.reset_timer ∧
    (updateSocket g.IncreaseScore s.id
      (fun t => t.UpdateTimeout g.IncreaseScore tUpd sec usec)).sockets.map Socket.id =
        g.sockets.map Socket.id ∧
    (updateSocket g.IncreaseScore s.id
      (fun t => t.UpdateTimeout g.IncreaseScore tUpd sec usec)).sockets =
      g.sockets.map (fun t =>
        if t.id = s.id then
          { t with
            next := updateDeadline tUpd sec usec,
            out := t.out ++
              [statusLine sec usec (g.score + 1) (max (g.score + 1) g.max_score)] }
        else t) ∧
    toMicros (updateDeadline tUpd sec usec) = toMicros tUpd + (1000000 * sec + usec) ∧
    (updateDeadline tUpd sec usec).usec < 1000000 := by
  refine ⟨onRead_tick_eq g s now tUpd bytesRead sec usec hn hr, ?_, ?_, ?_, ?_, ?_, ?_,
    updateDeadline_micros tUpd sec usec, updateDeadline_usec_lt tUpd sec usec⟩
  · simp [updateSocket, GlobalState.IncreaseScore]
  · simp [updateSocket, GlobalState.IncreaseScore]
  · simp [updateSocket, GlobalState.IncreaseScore]
  · simp [updateSocket, GlobalState.IncreaseScore]
  · simp only [updateSocket, GlobalState.IncreaseScore, List.map_map]
    apply List.map_congr_left
    intro t _
    by_cases h : t.id = s.id <;> simp [h, Socket.UpdateTimeout]
  · simp [updateSocket, Socket.UpdateTimeout, GlobalState.IncreaseScore]

theorem tick_witness :
    OnRead sampleState sampleSocket ⟨10, 5⟩ ⟨10, 6⟩ 3 1 999999 =
      some (updateSocket sampleState.IncreaseScore sampleSocket.id
        (fun t => t.UpdateTimeout sampleState.IncreaseScore ⟨10, 6⟩ 1 999999)) ∧
    (updateSocket sampleState.IncreaseScore sampleSocket.id
      (fun t => t.UpdateTimeout sampleState.IncreaseScore ⟨10, 6⟩ 1 999999)).score =
        sampleState.score + 1 := by
  have h := tick_spec sampleState sampleSocket ⟨10, 5⟩ ⟨10, 6⟩ 3 1 999999
    (by decide) (by decide) (by decide) (by decide) (by decide)
  exact ⟨h.1, h.2.1⟩

/-- Claim C6: on connect and after every successful tick the server writes
exactly one status line with the printf shape
sec "." usec6 " " score " " maxScore "\n" (usec6 zero-padded to exactly 6
digits for any draw below one million), carrying the state's counters as
visible at emission time — i.e. the pre-tick values for the just-armed
deadline: the current counters on connect, and the just-incremented
counters after a tick. -/
theorem status_line_spec :
    (∀ (g : GlobalState) (fd : Nat) (now : Timeval) (sec usec : Nat),
      (OnAccept g fd now sec usec).sockets =
        g.sockets ++ [⟨fd, updateDeadline now sec usec,
          [statusLine sec usec g.score g.max_score]⟩]) ∧
    (∀ (g : GlobalState) (s : Socket) (now tUpd : Timeval) (bytesRead sec usec : Nat),
      0 < bytesRead → IsReady now s.next = true →
      OnRead g s now tUpd bytesRead sec usec =
        some (updateSocket g.IncreaseScore s.id
          (fun t => t.UpdateTimeout g.IncreaseScore tUpd sec usec)) ∧
      (∀ t : Socket, (t.UpdateTimeout g.IncreaseScore tUpd sec usec).out =
        t.out ++ [statusLine sec usec (g.score + 1) (max (g.score + 1) g.max_score)])) ∧
    (∀ sec usec score maxScore : Nat,
      statusLine sec usec score maxScore =
        natToDec sec ++ "." ++ pad6 usec ++ " " ++ natToDec score ++ " " ++
          natToDec maxScore ++ "\n") ∧
    (∀ u : Nat, u < 1000000 → (pad6 u).length = 6) := by
  refine ⟨onAccept_sockets, ?_, fun _ _ _ _ => rfl, pad6_length⟩
  intro g s now tUpd bytesRead sec usec hn hr
  refine ⟨onRead_tick_eq g s now tUpd bytesRead sec usec hn hr, ?_⟩
  intro t
  simp [Socket.UpdateTimeout, GlobalState.IncreaseScore]

theorem status_line_witness :
    OnRead sampleState sampleSocket ⟨10, 5⟩ ⟨10, 6⟩ 2 0 7 =
      some (updateSocket sampleState.IncreaseScore sampleSocket.id
        (fun t => t.UpdateTimeout sampleState.IncreaseScore ⟨10, 6⟩ 0 7)) ∧
    (pad6 12345).length = 6 := by
  refine ⟨(status_line_spec.2.1 sampleState sampleSocket ⟨10, 5⟩ ⟨10, 6⟩ 2 0 7
    (by decide) (by decide)).1, status_line_spec.2.2.2 12345 (by decide)⟩

/-- Claim C4: `ResetAndPrintScore` never modifies maxScore; for an epoch of
`n` ticks starting from a zeroed score, the maxScore after the epoch's
reset is `max (maxScore before the epoch) (score at the reset)`; and no
dispatch step of the loop ever decreases maxScore, so it is monotonically
non-decreasing over the whole process lifetime. -/
theorem maxScore_epoch_spec :
    (∀ g : GlobalState, (GlobalState.ResetAndPrintScore g).max_score = g.max_score) ∧
    (∀ (g : GlobalState) (n : Nat), g.score = 0 →
      (GlobalState.IncreaseScore^[n] g).score = n ∧
      ((GlobalState.IncreaseScore^[n] g).ResetAndPrintScore).max_score =
        max g.max_score (GlobalState.IncreaseScore^[n] g).score) ∧
    (∀ (p : GlobalState × Bool) (e : Ev) (p' : GlobalState × Bool),
      stepH p e = some p' → p.1.max_score ≤ p'.1.max_score) := by
  refine ⟨fun g => rfl, ?_, ?_⟩
  · intro g n h0
    obtain ⟨h1, h2, _⟩ := increase_iter g n
    rw [h0] at h1 h2
    simp only [Nat.zero_add] at h1 h2
    refine ⟨h1, ?_⟩
    show (GlobalState.IncreaseScore^[n] g).max_score = _
    rw [h2, h1]
    by_cases hn : n = 0 <;> simp [hn]
  · intro p e p' h
    cases e with
    | accept fd now sec usec =>
      simp only [stepH] at h
      obtain rfl : (OnAccept p.1 fd now sec usec, true) = p' := Option.some.inj h
      exact le_of_eq ((onAccept_score p.1 fd now sec usec).2.1).symm
    | readable sid now tUpd bytesRead sec usec =>
      simp only [stepH] at h
      cases hf : findSocket p.1 sid with
      | none => simp [hf] at h
      | some s =>
        simp only [hf] at h
        cases hor : OnRead p.1 s now tUpd bytesRead sec usec with
        | none => simp [hor] at h
        | some g2 =>
          simp only [hor] at h
          obtain rfl : (g2, if IsReady now s.next then p.2 else false) = p' :=
            Option.some.inj h
          by_cases hb : bytesRead = 0
          · simp [OnRead, hb] at hor
          · by_cases hready : IsReady now s.next = true
            · rw [onRead_tick_eq p.1 s now tUpd bytesRead sec usec
                (Nat.pos_of_ne_zero hb) hready] at hor
              obtain rfl : _ = g2 := Option.some.inj hor
              simp only [updateSocket, GlobalState.IncreaseScore]
              exact le_max_right _ _
            · rw [onRead_violation_eq p.1 s now tUpd bytesRead sec usec
                (Nat.pos_of_ne_zero hb) (Bool.not_eq_true _ ▸ hready)] at hor
              obtain rfl : _ = g2 := Option.some.inj hor
              exact le_of_eq ((closeAll_fields p.1).2.2.2.2).symm
    | closed sid eof err =>
      simp only [stepH] at h
      cases hf : findSocket p.1 sid with
      | none => simp [hf] at h
      | some s =>
        simp only [hf] at h
        obtain rfl : (OnEvent p.1 s eof err, p.2) = p' := Option.some.inj h
        by_cases he : (eof || err) = true
        · simp [OnEvent, he, eraseSocket]
        · simp [OnEvent, he]
    | timerFire =>
      simp only [stepH] at h
      cases ht : p.1.reset_timer with
      | none => simp [ht] at h
      | some t =>
        simp only [ht] at h
        obtain rfl : (CloseAllSockets p.1, false) = p' := Option.some.inj h
        exact le_of_eq ((closeAll_fields p.1).2.2.2.2).symm

theorem maxScore_epoch_witness :
    (GlobalState.IncreaseScore^[3] (initState 1 60)).score = 3 ∧
    ((GlobalState.IncreaseScore^[3] (initState 1 60)).ResetAndPrintScore).max_score =
      max (initState 1 60).max_score (GlobalState.IncreaseScore^[3] (initState 1 60)).score ∧
    (initState 1 60, false).1.max_score ≤
      (OnAccept (initState 1 60) 1 ⟨0, 0⟩ 0 0, true).1.max_score := by
  refine ⟨(maxScore_epoch_spec.2.1 (initState 1 60) 3 rfl).1,
    (maxScore_epoch_spec.2.1 (initState 1 60) 3 rfl).2, ?_⟩
  exact maxScore_epoch_spec.2.2 (initState 1 60, false) (.accept 1 ⟨0, 0⟩ 0 0)
    (OnAccept (initState 1 60) 1 ⟨0, 0⟩ 0 0, true) (by decide)

/-- Claim C5: in every reachable state the reset-timer handle is set iff at
least one connection has been accepted since the last reset (or process
start) and no reset has fired since (the ghost flag of `stepH` records
exactly that); an accept while the timer is armed leaves the existing
handle unchanged, and `CloseAllSockets` (the only reset path) clears it. -/
theorem reset_timer_invariant :
    (∀ p : GlobalState × Bool, ReachableH p → (p.1.reset_timer ≠ none ↔ p.2 = true)) ∧
    (∀ (g : GlobalState) (fd : Nat) (now : Timeval) (sec usec : Nat) (t : Timeval),
      g.reset_timer = some t → (OnAccept g fd now sec usec).reset_timer = some t) ∧
    (∀ g : GlobalState, (CloseAllSockets g).reset_timer = none) := by
  refine ⟨?_, onAccept_timer_preserved, fun g => (closeAll_fields g).2.2.2.1⟩
  intro p h
  induction h with
  | init ms mbr => simp [initState]
  | step p e p' hR hstep ih =>
    cases e with
    | accept fd now sec usec =>
      simp only [stepH] at hstep
      obtain rfl : (OnAccept p.1 fd now sec usec, true) = p' := Option.some.inj hstep
      simp [onAccept_timer_isSome p.1 fd now sec usec]
    | readable sid now tUpd bytesRead sec usec =>
      simp only [stepH] at hstep
      cases hf : findSocket p.1 sid with
      | none => simp [hf] at hstep
      | some s =>
        simp only [hf] at hstep
        cases hor : OnRead p.1 s now tUpd bytesRead sec usec with
        | none => simp [hor] at hstep
        | some g2 =>
          simp only [hor] at hstep
          obtain rfl : (g2, if IsReady now s.next then p.2 else false) = p' :=
            Option.some.inj hstep
          by_cases hb : bytesRead = 0
          · simp [OnRead, hb] at hor
          · by_cases hready : IsReady now s.next = true
            · rw [onRead_tick_eq p.1 s now tUpd bytesRead sec usec
                (Nat.pos_of_ne_zero hb) hready] at hor
              obtain rfl : _ = g2 := Option.some.inj hor
              simpa [hready, updateSocket] using ih
            · rw [onRead_violation_eq p.1 s now tUpd bytesRead sec usec
                (Nat.pos_of_ne_zero hb) (Bool.not_eq_true _ ▸ hready)] at hor
              obtain rfl : _ = g2 := Option.some.inj hor
              simp [hready, (closeAll_fields p.1).2.2.2.1]
    | closed sid eof err =>
      simp only [stepH] at hstep
      cases hf : findSocket p.1 sid with
      | none => simp [hf] at hstep
      | some s =>
        simp only [hf] at hstep
        obtain rfl : (OnEvent p.1 s eof err, p.2) = p' := Option.some.inj hstep
        by_cases he : (eof || err) = true
        · simpa [OnEvent, he, eraseSocket] using ih
        · simpa [OnEvent, he] using ih
    | timerFire =>
      simp only [stepH] at hstep
      cases ht : p.1.reset_timer with
      | none => simp [ht] at hstep
      | some t =>
        simp only [ht] at hstep
        obtain rfl : (CloseAllSockets p.1, false) = p' := Option.some.inj hstep
        simp [(closeAll_fields p.1).2.2.2.1]

theorem reset_timer_witness :
    ((initState 1 60, false).1.reset_timer ≠ none ↔ (initState 1 60, false).2 = true) ∧
    (OnAccept samplePair 9 ⟨20, 0⟩ 0 0).reset_timer = some ⟨70, 0⟩ ∧
    (CloseAllSockets samplePair).reset_timer = none := by
  refine ⟨reset_timer_invariant.1 (initState 1 60, false) (ReachableH.init 1 60), ?_,
    reset_timer_invariant.2.2 samplePair⟩
  exact reset_timer_invariant.2.1 samplePair 9 ⟨20, 0⟩ 0 0 ⟨70, 0⟩ (by decide)

/-- Claim C8 counterexample: with delayBound = 1, resetInterval = 60 and
the random source yielding sec = 0, usec = 0, the client connecting at
time 100.000000 does receive "0.000000 0 0\n", but a read arriving
immediately afterwards (same instant, deadline equal to now) is NOT a
timing violation: `IsReady` is true at the deadline, so the read is a
tick — the score becomes 1 and nothing is printed to stdout, contradicting
the claimed immediate reset with output "0 / 0". -/
theorem immediate_read_counterexample :
    (OnAccept (initState 1 60) 7 ⟨100, 0⟩ 0 0).sockets =
      [⟨7, ⟨100, 0⟩, ["0.000000 0 0\n"]⟩] ∧
    IsReady ⟨100, 0⟩ ⟨100, 0⟩ = true ∧
    (OnRead (OnAccept (initState 1 60) 7 ⟨100, 0⟩ 0 0) ⟨7, ⟨100, 0⟩, ["0.000000 0 0\n"]⟩
      ⟨100, 0⟩ ⟨100, 0⟩ 1 0 0).map GlobalState.score = some 1 ∧
    (OnRead (OnAccept (initState 1 60) 7 ⟨100, 0⟩ 0 0) ⟨7, ⟨100, 0⟩, ["0.000000 0 0\n"]⟩
      ⟨100, 0⟩ ⟨100, 0⟩ 1 0 0).map GlobalState.output = some [] ∧
    (OnRead (OnAccept (initState 1 60) 7 ⟨100, 0⟩ 0 0) ⟨7, ⟨100, 0⟩, ["0.000000 0 0\n"]⟩
      ⟨100, 0⟩ ⟨100, 0⟩ 1 0 0).map GlobalState.output ≠ some [resultLine 0 0] := by
  decide

/-- Claim C8 (amended): with delayBound = 1, resetInterval = 60 and the
random source yielding sec = 0, usec = 0, the connecting client receives
the status line "0.000000 0 0\n" with deadline equal to the accept time;
a read arriving at or after that instant satisfies the deadline
(`IsReady` is inclusive), so it is counted as a successful tick — the
score becomes 1 and no reset occurs (nothing is printed to stdout).  An
immediate reset is impossible for a zero drawn delay, since a violation
would require reading strictly before the accept instant. -/
theorem zero_delay_amended (t0 now tUpd : Timeval) (bytesRead : Nat)
    (hn : 0 < bytesRead) (h0 : t0.usec < 1000000) (h1 : now.usec < 1000000)
    (hle : toMicros t0 ≤ toMicros now) :
    (OnAccept (initState 1 60) 7 t0 0 0).sockets = [⟨7, t0, ["0.000000 0 0\n"]⟩] ∧
    IsReady now t0 = true ∧
    (OnRead (OnAccept (initState 1 60) 7 t0 0 0) ⟨7, t0, ["0.000000 0 0\n"]⟩ now tUpd
      bytesRead 0 0).map GlobalState.score = some 1 ∧
    (OnRead (OnAccept (initState 1 60) 7 t0 0 0) ⟨7, t0, ["0.000000 0 0\n"]⟩ now tUpd
      bytesRead 0 0).map GlobalState.output = some [] := by
  have hready : IsReady now t0 = true := (isReady_iff now t0 h1 h0).mpr hle
  have hline : statusLine 0 0 0 0 = "0.000000 0 0\n" := by decide
  have hsock : (OnAccept (initState 1 60) 7 t0 0 0).sockets =
      [⟨7, t0, ["0.000000 0 0\n"]⟩] := by
    rw [onAccept_sockets]
    simp [initState, updateDeadline_self t0 h0, hline]
  refine ⟨hsock, hready, ?_, ?_⟩
  · rw [onRead_tick_eq _ _ _ _ _ _ _ hn hready]
    simp only [Option.map]
    have := (updateSocket_fields ((OnAccept (initState 1 60) 7 t0 0 0).IncreaseScore) 7
      (fun t => t.UpdateTimeout ((OnAccept (initState 1 60) 7 t0 0 0).IncreaseScore) tUpd 0 0)).1
    rw [this]
    simp only [GlobalState.IncreaseScore]
    rw [(onAccept_score (initState 1 60) 7 t0 0 0).1]
    rfl
  · rw [onRead_tick_eq _ _ _ _ _ _ _ hn hready]
    simp only [Option.map]
    have := (updateSocket_fields ((OnAccept (initState 1 60) 7 t0 0 0).IncreaseScore) 7
      (fun t => t.UpdateTimeout ((OnAccept (initState 1 60) 7 t0 0 0).IncreaseScore) tUpd 0 0)).2.2.1
    rw [this]
    simp only [GlobalState.IncreaseScore]
    rw [(onAccept_score (initState 1 60) 7 t0 0 0).2.2]
    rfl

theorem zero_delay_witness :
    IsReady ⟨100, 5⟩ ⟨100, 0⟩ = true ∧
    (OnRead (OnAccept (initState 1 60) 7 ⟨100, 0⟩ 0 0) ⟨7, ⟨100, 0⟩, ["0.000000 0 0\n"]⟩
      ⟨100, 5⟩ ⟨100, 6⟩ 1 0 0).map GlobalState.score = some 1 := by
  have h := zero_delay_amended ⟨100, 0⟩ ⟨100, 5⟩ ⟨100, 6⟩ 1
    (by decide) (by decide) (by decide) (by decide)
  exact ⟨h.2.1, h.2.2.1⟩

end Slowpoke
